import Mathlib

/-!
Verification development for the `tele` repository.

The repository contains four command-line scripts; the logic relevant here is:
* `generate_folders.py` — per-file output folders with `-`-separator sanitizer and
  `name-2, name-3, …` duplicate resolution (`sanitize_for_dir_name`,
  `create_unique_subfolder`, `filter_files`, `process_file`, `main`);
* `organize_with_gemini.py` — per-file folders with `_`-separator sanitizer and
  `name_1, name_2, …` duplicate resolution (`sanitize_folder_name`,
  `ensure_unique_path`, `process_files`, `parse_args`, `main`);
* `groups_file.py` — Telegram helpers, of which `send_file` (size ceiling and
  failure taxonomy) is modelled.

Strings are modelled by Lean `String` (a list of Unicode code points, matching
Python `str`).  The filesystem is modelled by an explicit state: a list of
folder names under the destination root, a list of `(folder, filename)` pairs
for files created under it, and a list of source-directory file names.
All definitions are executable and kernel-reducible.
-/

/-! ### Character predicates -/

/-- Character class of the regex `[A-Za-z0-9._-]` used by
`sanitize_for_dir_name` in `generate_folders.py` (line 117): the allow-set. -/
def allowedDir (c : Char) : Bool :=
  ('A' ≤ c && c ≤ 'Z') || ('a' ≤ c && c ≤ 'z') || ('0' ≤ c && c ≤ '9') ||
    c == '.' || c == '_' || c == '-'

/-- Python `str.isspace` restricted to the ASCII whitespace characters (the
inputs in scope contain no exotic Unicode whitespace).  Used to model the
argument-free `str.strip()`. -/
def pyIsSpace (c : Char) : Bool :=
  c == ' ' || c == '\t' || c == '\n' || c == '\r' ||
    c == '\x0b' || c == '\x0c'

/-- Python `str.isalnum`, modelled on the Latin-1 range (code points up to
U+00FF): ASCII letters and digits, plus the Latin-1 letters and numeric
characters that Python's Unicode database classifies as alphanumeric
(ª, µ, º, ², ³, ¹, ¼, ½, ¾, and À–ÿ except × and ÷).  Code points above
U+00FF are not modelled.  This is the predicate `ch.isalnum()` used by
`sanitize_folder_name` in `organize_with_gemini.py` (line 114). -/
def pyIsAlnum (c : Char) : Bool :=
  c.isAlphanum ||
    c.toNat == 0xAA || c.toNat == 0xB5 || c.toNat == 0xBA ||
    c.toNat == 0xB2 || c.toNat == 0xB3 || c.toNat == 0xB9 ||
    (0xBC ≤ c.toNat && c.toNat ≤ 0xBE) ||
    (0xC0 ≤ c.toNat && c.toNat ≤ 0xFF &&
      !(c.toNat == 0xD7) && !(c.toNat == 0xF7))

/-- The keep-set of `sanitize_folder_name` (line 114 of
`organize_with_gemini.py`): `ch.isalnum() or ch in {"-", "_", ".", " "}`. -/
def keepCharO (c : Char) : Bool :=
  pyIsAlnum c || c == '-' || c == '_' || c == '.' || c == ' '

/-- Characters stripped from both ends by `sanitize_for_dir_name`:
`.strip("-._")`. -/
def isStrip1 (c : Char) : Bool :=
  c == '-' || c == '.' || c == '_'

/-- Characters stripped from both ends by `sanitize_folder_name`'s final
`.strip("._")`. -/
def isStrip2 (c : Char) : Bool :=
  c == '.' || c == '_'

/-! ### String helpers shared by both sanitizers -/

/-- Python's `str.strip`-style removal from both ends: drop the longest run of
characters satisfying `p` from the front, then from the back. -/
def stripBoth (p : Char → Bool) (l : List Char) : List Char :=
  (l.dropWhile p).rdropWhile p

/-- Collapse every run of the separator character `d` to a single occurrence,
keeping the last element of each run.  This models both
`re.sub(r"-+", "-", s)` (maximal runs of `-` replaced by one `-`) and the
`while "__" in safe: safe = safe.replace("__", "_")` loop (which terminates
exactly when no two adjacent underscores remain). -/
def collapseRuns (d : Char) : List Char → List Char
  | [] => []
  | [c] => [c]
  | a :: b :: r =>
    if a = d ∧ b = d then collapseRuns d (b :: r)
    else a :: collapseRuns d (b :: r)

/-- Replacement pass of `sanitize_for_dir_name`:
`re.sub(r"[^A-Za-z0-9._-]", "-", name)` replaces every character outside the
allow-set with one `-`. -/
def subDashes (l : List Char) : List Char :=
  l.map fun c => if allowedDir c then c else '-'

/-- Replacement pass of `sanitize_folder_name`: each character outside the
keep-set becomes one `_`. -/
def subUnders (l : List Char) : List Char :=
  l.map fun c => if keepCharO c then c else '_'

/-! ### The two sanitizers -/

/-- `sanitize_for_dir_name` from `generate_folders.py` (lines 116–119):
replace out-of-set characters by `-`, collapse runs of `-`, strip `-._` from
both ends, and fall back to `"item"` when the result is empty. -/
def sanitize_for_dir_name (name : String) : String :=
  let t := stripBoth isStrip1 (collapseRuns '-' (subDashes name.data))
  if t = [] then "item" else ⟨t⟩

/-- `sanitize_folder_name` from `organize_with_gemini.py` (lines 104–122):
empty input falls back immediately; otherwise replace out-of-set characters by
`_`, collapse runs of `_`, strip whitespace from both ends, then strip `._`
from both ends, and fall back when the result is empty. -/
def sanitize_folder_name (name : String) (fallback : String := "item") : String :=
  if name.data = [] then fallback
  else
    let safe := collapseRuns '_' (subUnders name.data)
    let t := stripBoth isStrip2 (stripBoth pyIsSpace safe)
    if t = [] then fallback else ⟨t⟩

/-! ### Lemmas about the string helpers -/

theorem mem_of_mem_dropWhile {α : Type} {p : α → Bool} {l : List α} {a : α}
    (h : a ∈ l.dropWhile p) : a ∈ l := by
  have hs := List.dropWhile_suffix (l := l) p
  exact hs.sublist.mem h

theorem rdropWhile_eq_append {α : Type} (p : α → Bool) (l : List α) :
    ∃ t, l = l.rdropWhile p ++ t := by
  obtain ⟨t, ht⟩ := List.dropWhile_suffix (l := l.reverse) p
  refine ⟨t.reverse, ?_⟩
  have : l.reverse.reverse = (t ++ l.reverse.dropWhile p).reverse := by rw [ht]
  simpa [List.rdropWhile, List.reverse_append] using this

theorem mem_of_mem_rdropWhile {α : Type} {p : α → Bool} {l : List α} {a : α}
    (h : a ∈ l.rdropWhile p) : a ∈ l := by
  obtain ⟨t, ht⟩ := rdropWhile_eq_append p l
  rw [ht]
  exact List.mem_append_left _ h

theorem mem_of_mem_stripBoth {p : Char → Bool} {l : List Char} {a : Char}
    (h : a ∈ stripBoth p l) : a ∈ l :=
  mem_of_mem_dropWhile (mem_of_mem_rdropWhile h)

theorem dropWhile_head?_not {α : Type} {p : α → Bool} :
    ∀ {l : List α} {a : α}, (l.dropWhile p).head? = some a → p a = false := by
  intro l
  induction l with
  | nil => intro a h; simp at h
  | cons x t ih =>
    intro a h
    by_cases hx : p x
    · exact ih (by simpa [List.dropWhile_cons_of_pos hx] using h)
    · rw [List.dropWhile_cons_of_neg hx] at h
      simp only [List.head?_cons, Option.some.injEq] at h
      subst h
      exact Bool.eq_false_iff.mpr hx

theorem dropWhile_eq_self_of_head? {α : Type} {p : α → Bool} {l : List α} {a : α}
    (h : l.head? = some a) (hp : p a = false) : l.dropWhile p = l := by
  cases l with
  | nil => rfl
  | cons x t =>
    simp only [List.head?_cons, Option.some.injEq] at h
    subst h
    exact List.dropWhile_cons_of_neg (by simp [hp])

theorem dropWhile_rdropWhile_dropWhile (p : Char → Bool) (l : List Char) :
    ((l.dropWhile p).rdropWhile p).dropWhile p = (l.dropWhile p).rdropWhile p := by
  cases h : ((l.dropWhile p).rdropWhile p).head? with
  | none =>
    have : (l.dropWhile p).rdropWhile p = [] := by simpa using h
    simp [this]
  | some a =>
    obtain ⟨t, ht⟩ := rdropWhile_eq_append p (l.dropWhile p)
    have hm : (l.dropWhile p).head? = some a := by
      cases hr : (l.dropWhile p).rdropWhile p with
      | nil => rw [hr] at h; simp at h
      | cons x xs =>
        rw [hr] at h
        simp only [List.head?_cons, Option.some.injEq] at h
        subst h
        rw [ht, hr]
        rfl
    exact dropWhile_eq_self_of_head? h (dropWhile_head?_not hm)

theorem stripBoth_idem (p : Char → Bool) (l : List Char) :
    stripBoth p (stripBoth p l) = stripBoth p l := by
  unfold stripBoth
  rw [dropWhile_rdropWhile_dropWhile, List.rdropWhile_idempotent]

theorem chain'_rdropWhile {R : Char → Char → Prop} {p : Char → Bool}
    {l : List Char} (h : List.Chain' R l) : List.Chain' R (l.rdropWhile p) := by
  have h1 : List.Chain' (flip R) l.reverse :=
    List.chain'_reverse.mp (by simpa using h)
  have h2 : List.Chain' (flip R) (l.reverse.dropWhile p) :=
    h1.suffix (List.dropWhile_suffix p)
  simpa [List.rdropWhile] using List.chain'_reverse.mpr h2

theorem chain'_stripBoth {R : Char → Char → Prop} {p : Char → Bool}
    {l : List Char} (h : List.Chain' R l) : List.Chain' R (stripBoth p l) :=
  chain'_rdropWhile (h.suffix (List.dropWhile_suffix p))

theorem mem_collapseRuns {d : Char} :
    ∀ {l : List Char} {a : Char}, a ∈ collapseRuns d l → a ∈ l := by
  intro l
  induction l with
  | nil => intro a h; simp [collapseRuns] at h
  | cons x t ih =>
    intro a h
    cases t with
    | nil => simpa [collapseRuns] using h
    | cons y r =>
      rw [collapseRuns] at h
      by_cases hc : x = d ∧ y = d
      · rw [if_pos hc] at h
        exact List.mem_cons_of_mem _ (ih h)
      · rw [if_neg hc] at h
        rcases List.mem_cons.mp h with h1 | h2
        · exact h1 ▸ List.mem_cons_self _ _
        · exact List.mem_cons_of_mem _ (ih h2)

theorem collapseRuns_head?_of_ne {d b : Char} (hb : ¬b = d) (r : List Char) :
    (collapseRuns d (b :: r)).head? = some b := by
  cases r with
  | nil => rfl
  | cons c r' =>
    rw [collapseRuns, if_neg (by intro hc; exact hb hc.1)]
    rfl

theorem chain'_collapseRuns (d : Char) :
    ∀ l : List Char, List.Chain' (fun a b => ¬(a = d ∧ b = d)) (collapseRuns d l) := by
  intro l
  induction l with
  | nil => simp [collapseRuns]
  | cons x t ih =>
    cases t with
    | nil => simp [collapseRuns]
    | cons y r =>
      rw [collapseRuns]
      by_cases hc : x = d ∧ y = d
      · rw [if_pos hc]; exact ih
      · rw [if_neg hc]
        refine List.chain'_cons'.mpr ⟨?_, ih⟩
        intro z hz
        by_cases hy : y = d
        · intro hzx
          rcases hzx with ⟨hx, hz'⟩
          exact hc ⟨hx, hy⟩
        · rw [collapseRuns_head?_of_ne hy r] at hz
          simp only [Option.mem_def, Option.some.injEq] at hz
          subst hz
          intro hzx
          exact hy hzx.2

theorem collapseRuns_eq_self_of_chain' {d : Char} :
    ∀ {l : List Char}, List.Chain' (fun a b => ¬(a = d ∧ b = d)) l →
      collapseRuns d l = l := by
  intro l
  induction l with
  | nil => intro _; rfl
  | cons x t ih =>
    intro h
    cases t with
    | nil => rfl
    | cons y r =>
      have hxy : ¬(x = d ∧ y = d) := (List.chain'_cons.mp h).1
      rw [collapseRuns, if_neg hxy, ih (List.chain'_cons.mp h).2]

/-! ### Properties of the sanitizers -/

theorem mem_subDashes_allowed {l : List Char} {c : Char}
    (h : c ∈ subDashes l) : allowedDir c = true := by
  obtain ⟨a, _, ha⟩ := List.mem_map.mp h
  by_cases hall : allowedDir a
  · rw [if_pos hall] at ha; exact ha ▸ hall
  · rw [if_neg hall] at ha; subst ha; decide

theorem mem_subUnders_keep {l : List Char} {c : Char}
    (h : c ∈ subUnders l) : keepCharO c = true := by
  obtain ⟨a, _, ha⟩ := List.mem_map.mp h
  by_cases hk : keepCharO a
  · rw [if_pos hk] at ha; exact ha ▸ hk
  · rw [if_neg hk] at ha; subst ha; decide

theorem sanitize_for_dir_name_mem {s : String} {c : Char}
    (h : c ∈ (sanitize_for_dir_name s).data) : allowedDir c = true := by
  unfold sanitize_for_dir_name at h
  by_cases ht : stripBoth isStrip1 (collapseRuns '-' (subDashes s.data)) = []
  · rw [if_pos ht] at h
    fin_cases h <;> decide
  · rw [if_neg ht] at h
    exact mem_subDashes_allowed (mem_collapseRuns (mem_of_mem_stripBoth h))

theorem sanitize_folder_name_mem {s : String} {c : Char}
    (h : c ∈ (sanitize_folder_name s).data) : keepCharO c = true := by
  unfold sanitize_folder_name at h
  by_cases hs : s.data = []
  · rw [if_pos hs] at h
    fin_cases h <;> decide
  · rw [if_neg hs] at h
    by_cases ht : stripBoth isStrip2
        (stripBoth pyIsSpace (collapseRuns '_' (subUnders s.data))) = []
    · rw [if_pos ht] at h
      fin_cases h <;> decide
    · rw [if_neg ht] at h
      exact mem_subUnders_keep
        (mem_collapseRuns (mem_of_mem_stripBoth (mem_of_mem_stripBoth h)))

theorem sanitize_for_dir_name_ne_nil (s : String) :
    (sanitize_for_dir_name s).data ≠ [] := by
  unfold sanitize_for_dir_name
  by_cases ht : stripBoth isStrip1 (collapseRuns '-' (subDashes s.data)) = []
  · rw [if_pos ht]; decide
  · rw [if_neg ht]; exact ht

theorem sanitize_folder_name_ne_nil (s : String) :
    (sanitize_folder_name s).data ≠ [] := by
  unfold sanitize_folder_name
  by_cases hs : s.data = []
  · rw [if_pos hs]; decide
  · rw [if_neg hs]
    by_cases ht : stripBoth isStrip2
        (stripBoth pyIsSpace (collapseRuns '_' (subUnders s.data))) = []
    · rw [if_pos ht]; decide
    · rw [if_neg ht]; exact ht

theorem subDashes_eq_self {l : List Char} (h : ∀ c ∈ l, allowedDir c = true) :
    subDashes l = l := by
  unfold subDashes
  have : ∀ c ∈ l, (if allowedDir c then c else '-') = id c := by
    intro c hc
    rw [if_pos (h c hc)]
    rfl
  rw [List.map_congr_left this, List.map_id]

theorem sanitize_for_dir_name_idem (s : String) :
    sanitize_for_dir_name (sanitize_for_dir_name s) = sanitize_for_dir_name s := by
  by_cases ht : stripBoth isStrip1 (collapseRuns '-' (subDashes s.data)) = []
  · have h1 : sanitize_for_dir_name s = "item" := by
      unfold sanitize_for_dir_name
      rw [if_pos ht]
    rw [h1]
    decide
  · set t := stripBoth isStrip1 (collapseRuns '-' (subDashes s.data)) with htdef
    have h1 : sanitize_for_dir_name s = ⟨t⟩ := by
      unfold sanitize_for_dir_name
      rw [← htdef, if_neg ht]
    have hall : ∀ c ∈ t, allowedDir c = true := by
      intro c hc
      exact mem_subDashes_allowed (mem_collapseRuns (mem_of_mem_stripBoth hc))
    have hchain : List.Chain' (fun a b => ¬(a = '-' ∧ b = '-')) t :=
      chain'_stripBoth (chain'_collapseRuns '-' (subDashes s.data))
    have hcore : stripBoth isStrip1 (collapseRuns '-' (subDashes t)) = t := by
      rw [subDashes_eq_self hall, collapseRuns_eq_self_of_chain' hchain, htdef,
        stripBoth_idem]
    rw [h1]
    unfold sanitize_for_dir_name
    simp only [hcore, if_neg ht]

/-! ### Decimal printing: `Nat.repr` is injective

Both allocators build disambiguated names with Python f-strings
(`f"{desired}-{index}"`, `f"{desired}_{suffix}"`); `Nat.repr` is the model of
`str(index)`.  Distinctness of the generated candidates reduces to injectivity
of `Nat.repr`, proved here by relating `Nat.toDigitsCore` to `Nat.digits`. -/

theorem toDigitsCore_eq_digits :
    ∀ (fuel n : Nat) (ds : List Char), 0 < n → n < fuel →
      Nat.toDigitsCore 10 fuel n ds =
        ((Nat.digits 10 n).reverse.map Nat.digitChar) ++ ds := by
  intro fuel
  induction fuel with
  | zero => intro n ds _ hlt; omega
  | succ f ih =>
    intro n ds hn hlt
    rw [Nat.toDigitsCore]
    have hdig : Nat.digits 10 n = n % 10 :: Nat.digits 10 (n / 10) :=
      Nat.digits_def' (by norm_num) hn
    by_cases hq : n / 10 = 0
    · simp only [hq, if_true]
      rw [hdig, hq]
      simp
    · simp only [hq, if_false]
      have hq' : 0 < n / 10 := Nat.pos_of_ne_zero hq
      have hlt' : n / 10 < f := by
        have : n / 10 < n := Nat.div_lt_self hn (by norm_num)
        omega
      rw [ih (n / 10) (Nat.digitChar (n % 10) :: ds) hq' hlt', hdig]
      simp

theorem repr_eq_of_pos {n : Nat} (h : 0 < n) :
    Nat.repr n = ⟨(Nat.digits 10 n).reverse.map Nat.digitChar⟩ := by
  have := toDigitsCore_eq_digits (n + 1) n [] h (Nat.lt_succ_self n)
  rw [Nat.repr, Nat.toDigits, this]
  simp [List.asString]

theorem digitChar_inj_lt {a b : Nat} (ha : a < 10) (hb : b < 10)
    (h : Nat.digitChar a = Nat.digitChar b) : a = b := by
  have key : ∀ x y : Fin 10, Nat.digitChar x.val = Nat.digitChar y.val → x = y := by
    decide
  have := key ⟨a, ha⟩ ⟨b, hb⟩ h
  exact congrArg Fin.val this

theorem map_digitChar_inj :
    ∀ {l1 l2 : List Nat}, (∀ x ∈ l1, x < 10) → (∀ x ∈ l2, x < 10) →
      l1.map Nat.digitChar = l2.map Nat.digitChar → l1 = l2 := by
  intro l1
  induction l1 with
  | nil =>
    intro l2 _ _ h
    cases l2 with
    | nil => rfl
    | cons b t2 => simp at h
  | cons a t1 ih =>
    intro l2 h1 h2 h
    cases l2 with
    | nil => simp at h
    | cons b t2 =>
      simp only [List.map_cons, List.cons.injEq] at h
      have hab : a = b :=
        digitChar_inj_lt (h1 a (List.mem_cons_self _ _))
          (h2 b (List.mem_cons_self _ _)) h.1
      have ht : t1 = t2 :=
        ih (fun x hx => h1 x (List.mem_cons_of_mem _ hx))
          (fun x hx => h2 x (List.mem_cons_of_mem _ hx)) h.2
      rw [hab, ht]

theorem digits_map_eq_of_repr_eq {a b : Nat} (ha : 0 < a) (hb : 0 < b)
    (h : Nat.repr a = Nat.repr b) : Nat.digits 10 a = Nat.digits 10 b := by
  rw [repr_eq_of_pos ha, repr_eq_of_pos hb] at h
  have hdata := congrArg String.data h
  simp only at hdata
  have hrev : (Nat.digits 10 a).reverse = (Nat.digits 10 b).reverse :=
    map_digitChar_inj
      (fun x hx => Nat.digits_lt_base (by norm_num) (List.mem_reverse.mp hx))
      (fun x hx => Nat.digits_lt_base (by norm_num) (List.mem_reverse.mp hx))
      hdata
  exact List.reverse_injective hrev

theorem natRepr_injective : Function.Injective Nat.repr := by
  intro a b h
  rcases Nat.eq_zero_or_pos a with ha | ha
  · rcases Nat.eq_zero_or_pos b with hb | hb
    · rw [ha, hb]
    · exfalso
      subst ha
      rw [repr_eq_of_pos hb] at h
      have hdata := congrArg String.data h.symm
      have h0 : (Nat.digits 10 b).reverse.map Nat.digitChar = ['0'] := by
        simpa [Nat.repr, Nat.toDigits, Nat.toDigitsCore, List.asString] using hdata
      have hlen : (Nat.digits 10 b).reverse.length = 1 := by
        have := congrArg List.length h0
        simpa using this
      obtain ⟨z, hz⟩ : ∃ z, (Nat.digits 10 b).reverse = [z] := by
        cases hrev : (Nat.digits 10 b).reverse with
        | nil => rw [hrev] at hlen; simp at hlen
        | cons x t =>
          rw [hrev] at hlen
          simp only [List.length_cons] at hlen
          have : t = [] := List.length_eq_zero.mp (by omega)
          exact ⟨x, by rw [this]⟩
      have hzmem : z ∈ Nat.digits 10 b := by
        have : z ∈ (Nat.digits 10 b).reverse := by rw [hz]; exact List.mem_cons_self _ _
        exact List.mem_reverse.mp this
      have hz10 : z < 10 := Nat.digits_lt_base (by norm_num) hzmem
      have hzchar : Nat.digitChar z = '0' := by
        rw [hz] at h0
        simpa using h0
      have hz0 : z = 0 := digitChar_inj_lt hz10 (by norm_num) (by rw [hzchar]; rfl)
      have hdigits : Nat.digits 10 b = [0] := by
        have : (Nat.digits 10 b).reverse = [0] := by rw [hz, hz0]
        have h2 := congrArg List.reverse this
        simpa using h2
      have := Nat.ofDigits_digits 10 b
      rw [hdigits] at this
      simp [Nat.ofDigits] at this
      omega
  · rcases Nat.eq_zero_or_pos b with hb | hb
    · exfalso
      subst hb
      rw [repr_eq_of_pos ha] at h
      have hdata := congrArg String.data h
      have h0 : (Nat.digits 10 a).reverse.map Nat.digitChar = ['0'] := by
        simpa [Nat.repr, Nat.toDigits, Nat.toDigitsCore, List.asString] using hdata
      have hlen : (Nat.digits 10 a).reverse.length = 1 := by
        have := congrArg List.length h0
        simpa using this
      obtain ⟨z, hz⟩ : ∃ z, (Nat.digits 10 a).reverse = [z] := by
        cases hrev : (Nat.digits 10 a).reverse with
        | nil => rw [hrev] at hlen; simp at hlen
        | cons x t =>
          rw [hrev] at hlen
          simp only [List.length_cons] at hlen
          have : t = [] := List.length_eq_zero.mp (by omega)
          exact ⟨x, by rw [this]⟩
      have hzmem : z ∈ Nat.digits 10 a := by
        have : z ∈ (Nat.digits 10 a).reverse := by rw [hz]; exact List.mem_cons_self _ _
        exact List.mem_reverse.mp this
      have hz10 : z < 10 := Nat.digits_lt_base (by norm_num) hzmem
      have hzchar : Nat.digitChar z = '0' := by
        rw [hz] at h0
        simpa using h0
      have hz0 : z = 0 := digitChar_inj_lt hz10 (by norm_num) (by rw [hzchar]; rfl)
      have hdigits : Nat.digits 10 a = [0] := by
        have : (Nat.digits 10 a).reverse = [0] := by rw [hz, hz0]
        have h2 := congrArg List.reverse this
        simpa using h2
      have := Nat.ofDigits_digits 10 a
      rw [hdigits] at this
      simp [Nat.ofDigits] at this
      omega
    · have hdig := digits_map_eq_of_repr_eq ha hb h
      have h1 := Nat.ofDigits_digits 10 a
      have h2 := Nat.ofDigits_digits 10 b
      rw [hdig] at h1
      rw [h1] at h2
      exact h2

/-! ### The allocators

The filesystem's set of existing entries under a destination root is modelled
by a `List String` of names; `candidate.exists()` is list membership, and
`mkdir` conses the new name onto the list. -/

/-- Candidate sequence of `create_unique_subfolder` (`generate_folders.py`
lines 261–269): the sanitized desired name first, then `desired-2`,
`desired-3`, … (`f"{desired}-{index}"` with `index` starting at 2). -/
def candG (d : String) (k : Nat) : String :=
  if k = 0 then d else d ++ "-" ++ Nat.repr (k + 1)

/-- Candidate sequence of `ensure_unique_path` (`organize_with_gemini.py`
lines 125–135): the desired name first, then `desired_1`, `desired_2`, …
(`f"{desired_name}_{suffix}"` with `suffix` starting at 1). -/
def candO (d : String) (k : Nat) : String :=
  if k = 0 then d else d ++ "_" ++ Nat.repr k

/-- The `while candidate.exists(): try next candidate` loop common to both
allocators, made total with explicit fuel; with fuel `occ.length + 1` a free
candidate is always found (`findFreeFrom_not_mem_of_fuel`). -/
def findFreeFrom (occ : List String) (cand : Nat → String) : Nat → Nat → String
  | k, 0 => cand k
  | k, fuel + 1 => if cand k ∈ occ then findFreeFrom occ cand (k + 1) fuel else cand k

/-- `create_unique_subfolder(base_output_dir, desired_name)` from
`generate_folders.py` (lines 261–269): sanitize the desired name, probe
`desired, desired-2, desired-3, …` until a non-existing candidate is found,
then create it (`ensure_directory(candidate)`, unconditional — note that this
runs even in dry-run mode, since the function has no dry-run parameter).
Returns the chosen path and the updated contents of the destination root. -/
def create_unique_subfolder (occ : List String) (desired_name : String) :
    String × List String :=
  let d := sanitize_for_dir_name desired_name
  let p := findFreeFrom occ (candG d) 0 (occ.length + 1)
  (p, p :: occ)

/-- `ensure_unique_path(base_dir, desired_name)` from
`organize_with_gemini.py` (lines 125–135): pure lookup, no creation; probes
`desired, desired_1, desired_2, …` and returns the first candidate that does
not exist. -/
def ensure_unique_path (occ : List String) (desired_name : String) : String :=
  findFreeFrom occ (candO desired_name) 0 (occ.length + 1)

theorem string_append_data (a b : String) : (a ++ b).data = a.data ++ b.data :=
  rfl

theorem candG_injective (d : String) : Function.Injective (candG d) := by
  intro j k h
  unfold candG at h
  by_cases hj : j = 0
  · by_cases hk : k = 0
    · rw [hj, hk]
    · rw [if_pos hj, if_neg hk] at h
      have := congrArg String.data h
      rw [string_append_data, string_append_data] at this
      have hlen := congrArg List.length this
      simp [List.length_append] at hlen
  · by_cases hk : k = 0
    · rw [if_neg hj, if_pos hk] at h
      have := congrArg String.data h.symm
      rw [string_append_data, string_append_data] at this
      have hlen := congrArg List.length this
      simp [List.length_append] at hlen
    · rw [if_neg hj, if_neg hk] at h
      have hdata := congrArg String.data h
      rw [string_append_data, string_append_data, string_append_data,
        string_append_data] at hdata
      have h2 : (Nat.repr (j + 1)).data = (Nat.repr (k + 1)).data :=
        List.append_cancel_left hdata
      have h3 : Nat.repr (j + 1) = Nat.repr (k + 1) := String.ext h2
      have := natRepr_injective h3
      omega

theorem candO_injective (d : String) : Function.Injective (candO d) := by
  intro j k h
  unfold candO at h
  by_cases hj : j = 0
  · by_cases hk : k = 0
    · rw [hj, hk]
    · rw [if_pos hj, if_neg hk] at h
      have := congrArg String.data h
      rw [string_append_data, string_append_data] at this
      have hlen := congrArg List.length this
      simp [List.length_append] at hlen
  · by_cases hk : k = 0
    · rw [if_neg hj, if_pos hk] at h
      have := congrArg String.data h.symm
      rw [string_append_data, string_append_data] at this
      have hlen := congrArg List.length this
      simp [List.length_append] at hlen
    · rw [if_neg hj, if_neg hk] at h
      have hdata := congrArg String.data h
      rw [string_append_data, string_append_data, string_append_data,
        string_append_data] at hdata
      have h2 : (Nat.repr j).data = (Nat.repr k).data :=
        List.append_cancel_left hdata
      exact natRepr_injective (String.ext h2)

theorem exists_free_candidate (occ : List String) (cand : Nat → String)
    (hinj : Function.Injective cand) : ∃ i, i ≤ occ.length ∧ cand i ∉ occ := by
  by_contra hcon
  push_neg at hcon
  have hsub : (Finset.range (occ.length + 1)).image cand ⊆ occ.toFinset := by
    intro x hx
    obtain ⟨i, hi, hix⟩ := Finset.mem_image.mp hx
    rw [Finset.mem_range] at hi
    rw [List.mem_toFinset, ← hix]
    exact hcon i (by omega)
  have hcard := Finset.card_le_card hsub
  rw [Finset.card_image_of_injective _ hinj, Finset.card_range] at hcard
  have := List.toFinset_card_le occ
  omega

theorem findFreeFrom_not_mem_of_fuel (occ : List String) (cand : Nat → String) :
    ∀ (fuel k : Nat), (∃ i, i ≤ fuel ∧ cand (k + i) ∉ occ) →
      findFreeFrom occ cand k fuel ∉ occ := by
  intro fuel
  induction fuel with
  | zero =>
    intro k ⟨i, hi, hfree⟩
    have : i = 0 := by omega
    subst this
    simpa [findFreeFrom] using hfree
  | succ f ih =>
    intro k ⟨i, hi, hfree⟩
    rw [findFreeFrom]
    by_cases hmem : cand k ∈ occ
    · rw [if_pos hmem]
      have hi0 : i ≠ 0 := by
        intro h0
        subst h0
        simp only [Nat.add_zero] at hfree
        exact hfree hmem
      refine ih (k + 1) ⟨i - 1, by omega, ?_⟩
      have : k + 1 + (i - 1) = k + i := by omega
      rw [this]
      exact hfree
    · rw [if_neg hmem]
      exact hmem

theorem create_unique_subfolder_not_mem (occ : List String) (name : String) :
    (create_unique_subfolder occ name).1 ∉ occ := by
  unfold create_unique_subfolder
  obtain ⟨i, hi, hfree⟩ :=
    exists_free_candidate occ (candG (sanitize_for_dir_name name))
      (candG_injective _)
  exact findFreeFrom_not_mem_of_fuel occ _ (occ.length + 1) 0
    ⟨i, by omega, by simpa using hfree⟩

theorem ensure_unique_path_not_mem (occ : List String) (name : String) :
    ensure_unique_path occ name ∉ occ := by
  unfold ensure_unique_path
  obtain ⟨i, hi, hfree⟩ :=
    exists_free_candidate occ (candO name) (candO_injective _)
  exact findFreeFrom_not_mem_of_fuel occ _ (occ.length + 1) 0
    ⟨i, by omega, by simpa using hfree⟩

/-- The allocation step of the organize pipeline when not in dry-run mode:
`ensure_unique_path` immediately followed by `dest_dir.mkdir(parents=True,
exist_ok=True)` (`organize_with_gemini.py` lines 265 and 272–273). -/
def allocateO (occ : List String) (name : String) : String × List String :=
  let p := ensure_unique_path occ name
  (p, p :: occ)

/-- Iterate an allocation step `n` times against the same destination root,
collecting the returned paths and threading the root's contents. -/
def allocRun (step : List String → String × List String) :
    Nat → List String → List String × List String
  | 0, st => ([], st)
  | n + 1, st =>
    let r := step st
    let rest := allocRun step n r.2
    (r.1 :: rest.1, rest.2)

theorem allocRun_subset (step : List String → String × List String)
    (hstep : ∀ st, (step st).2 = (step st).1 :: st) :
    ∀ (n : Nat) (st : List String) (q : String),
      q ∈ st → q ∈ (allocRun step n st).2 := by
  intro n
  induction n with
  | zero => intro st q hq; exact hq
  | succ m ih =>
    intro st q hq
    rw [allocRun]
    exact ih _ q (by rw [hstep st]; exact List.mem_cons_of_mem _ hq)

theorem allocRun_paths_not_mem_start (step : List String → String × List String)
    (hfree : ∀ st, (step st).1 ∉ st)
    (hstep : ∀ st, (step st).2 = (step st).1 :: st) :
    ∀ (n : Nat) (st : List String) (q : String),
      q ∈ (allocRun step n st).1 → q ∉ st := by
  intro n
  induction n with
  | zero => intro st q hq; simp [allocRun] at hq
  | succ m ih =>
    intro st q hq
    rw [allocRun] at hq
    rcases List.mem_cons.mp hq with h1 | h2
    · exact h1 ▸ hfree st
    · intro hmem
      exact ih _ q h2 (by rw [hstep st]; exact List.mem_cons_of_mem _ hmem)

theorem allocRun_nodup (step : List String → String × List String)
    (hfree : ∀ st, (step st).1 ∉ st)
    (hstep : ∀ st, (step st).2 = (step st).1 :: st) :
    ∀ (n : Nat) (st : List String), (allocRun step n st).1.Nodup := by
  intro n
  induction n with
  | zero => intro st; simp [allocRun]
  | succ m ih =>
    intro st
    rw [allocRun]
    refine List.nodup_cons.mpr ⟨?_, ih _⟩
    intro hmem
    have := allocRun_paths_not_mem_start step hfree hstep m ((step st).2) _ hmem
    rw [hstep st] at this
    exact this (List.mem_cons_self _ _)

theorem allocRun_paths_mem_final (step : List String → String × List String)
    (hstep : ∀ st, (step st).2 = (step st).1 :: st) :
    ∀ (n : Nat) (st : List String) (q : String),
      q ∈ (allocRun step n st).1 → q ∈ (allocRun step n st).2 := by
  intro n
  induction n with
  | zero => intro st q hq; simp [allocRun] at hq
  | succ m ih =>
    intro st q hq
    rw [allocRun] at hq ⊢
    rcases List.mem_cons.mp hq with h1 | h2
    · refine allocRun_subset step hstep m _ q ?_
      rw [hstep st, h1]
      exact List.mem_cons_self _ _
    · exact ih _ q h2

/-! ### The selector: extension filtering -/

/-- A candidate file as the scripts see it, carrying the `pathlib` attributes
they read: `name` (full file name), `stem` (name without the final extension)
and `suffix` (final extension including its leading dot, or `""`). -/
structure SrcFile where
  name : String
  stem : String
  suffix : String
deriving DecidableEq

/-- Python `str.lower` restricted to ASCII case mapping (`Char.toLower`
lower-cases exactly `A`–`Z`), which is exact for the extension strings in
scope. -/
def lowerStr (s : String) : String :=
  ⟨s.data.map Char.toLower⟩

/-- `filter_files(files, include_ext, exclude_ext)` from `generate_folders.py`
(lines 133–147): the include set is lower-cased and only built when the
include list is truthy (neither `None` nor empty); the exclude set defaults to
empty; a file is kept when its lower-cased suffix is in the include set (if
any) and not in the exclude set. -/
def filter_files (files : List SrcFile)
    (include_ext exclude_ext : Option (List String)) : List SrcFile :=
  let include_set : Option (List String) :=
    match include_ext with
    | none => none
    | some l => if l = [] then none else some (l.map lowerStr)
  let exclude_set : List String :=
    match exclude_ext with
    | none => []
    | some l => l.map lowerStr
  files.filter fun f =>
    let ext := lowerStr f.suffix
    (match include_set with
     | some s => decide (ext ∈ s)
     | none => true) && !(decide (ext ∈ exclude_set))

/-- `normalize_exts` from `organize_with_gemini.py` (lines 225–238): drop
falsy entries, strip whitespace, lower-case, prepend a dot when missing, and
turn an empty result into `None` (`return normalized or None`). -/
def normalizeExts : Option (List String) → Option (List String)
  | none => none
  | some exts =>
    let normalized := exts.filterMap fun ext =>
      if ext.data = [] then none
      else
        let e := lowerStr ⟨stripBoth pyIsSpace ext.data⟩
        if e.data = [] then none
        else some (match e.data with
          | '.' :: _ => e
          | _ => "." ++ e)
    if normalized = [] then none else some normalized

/-- The two `continue` guards of the loop in `process_files`
(`organize_with_gemini.py` lines 256–261), applied to the already-normalized
extension lists: keep the file iff it passes the include filter (applied
first) and then the exclude filter. -/
def keepFileO (inc exc : Option (List String)) (f : SrcFile) : Bool :=
  let ext := lowerStr f.suffix
  (match inc with
   | some l => decide (ext ∈ l)
   | none => true) &&
  (match exc with
   | some l => !(decide (ext ∈ l))
   | none => true)

theorem mem_filter_files_iff (files : List SrcFile)
    (include_ext exclude_ext : Option (List String)) (f : SrcFile) :
    f ∈ filter_files files include_ext exclude_ext ↔
      f ∈ files ∧
        (∀ l, include_ext = some l → l ≠ [] →
          lowerStr f.suffix ∈ l.map lowerStr) ∧
        (∀ l, exclude_ext = some l → lowerStr f.suffix ∉ l.map lowerStr) := by
  unfold filter_files
  rw [List.mem_filter]
  constructor
  · rintro ⟨hmem, hcond⟩
    refine ⟨hmem, ?_, ?_⟩
    · intro l hl hne
      subst hl
      simp only [if_neg hne, Bool.and_eq_true, decide_eq_true_eq] at hcond
      exact hcond.1
    · intro l hl hmem2
      subst hl
      simp only [Bool.and_eq_true, Bool.not_eq_true', decide_eq_false_iff_not] at hcond
      exact hcond.2 hmem2
  · rintro ⟨hmem, hinc, hexc⟩
    refine ⟨hmem, ?_⟩
    simp only [Bool.and_eq_true, Bool.not_eq_true', decide_eq_false_iff_not]
    constructor
    · cases include_ext with
      | none => simp
      | some l =>
        by_cases hne : l = []
        · simp [hne]
        · simp only [if_neg hne, decide_eq_true_eq]
          exact hinc l rfl hne
    · cases exclude_ext with
      | none => simp
      | some l => exact hexc l rfl

theorem keepFileO_iff (inc exc : Option (List String)) (f : SrcFile) :
    keepFileO (normalizeExts inc) (normalizeExts exc) f = true ↔
      (∀ l, normalizeExts inc = some l → lowerStr f.suffix ∈ l) ∧
        (∀ l, normalizeExts exc = some l → lowerStr f.suffix ∉ l) := by
  unfold keepFileO
  cases hni : normalizeExts inc with
  | none =>
    cases hne : normalizeExts exc with
    | none => simp
    | some le => simp
  | some li =>
    cases hne : normalizeExts exc with
    | none => simp
    | some le => simp

/-! ### Filesystem state and the two pipelines -/

/-- The filesystem state the scripts mutate: folder names under the output
root (`dirs`), `(folder, filename)` pairs of files created under the output
root (`outFiles`), and the file names present in the source directory
(`srcFiles`, mutated only by `shutil.move`). -/
structure FS where
  dirs : List String
  outFiles : List (String × String)
  srcFiles : List String
deriving DecidableEq

/-- Console notices printed by `generate_folders.py` in dry-run mode
(`[DRY-RUN] Would copy … / Would write README.md / Would write
metadata.json`, lines 287, 256 and 323). -/
inductive GenLog
  | dryCopy (src dst : String)
  | dryReadme (dir : String)
  | dryMeta (dir : String)
deriving DecidableEq

/-- Log lines of `organize_with_gemini.process_files`: `Preparing folder`,
the copy/move line, `Skipping existing folder`, `README exists, skipping` and
`Writing README` (lines 268, 271, 277, 288 and 302). -/
inductive OrgLog
  | preparing (dir : String)
  | transfer (src dst : String) (move : Bool)
  | skipExisting (dir : String)
  | readmeExists (dir : String)
  | writingReadme (dir : String)
deriving DecidableEq

def isPreparing : OrgLog → Bool
  | .preparing _ => true
  | _ => false

def isSkipExisting : OrgLog → Bool
  | .skipExisting _ => true
  | _ => false

def isDryReadme : GenLog → Bool
  | .dryReadme _ => true
  | _ => false

/-- Configuration of `generate_folders.py` relevant to the filesystem model.
`--use-ai`/`--model`/`--max-bytes` only influence README *content* (via the
external Gemini call) and are not tracked. -/
structure GenCfg where
  include_ext : Option (List String)
  exclude_ext : Option (List String)
  copyOriginal : Bool
  dryRun : Bool
deriving DecidableEq

/-- `process_file` from `generate_folders.py` (lines 272–325):
`create_unique_subfolder` (which creates the folder unconditionally — even in
dry-run mode), then the optional copy of the original, the README write and
the metadata write, each individually suppressed (with a `[DRY-RUN]` notice)
when `dry_run` is set.  The AI call only affects README content and is not
modelled. -/
def process_file (cfg : GenCfg) (f : SrcFile) (fs : FS) : FS × List GenLog :=
  let r := create_unique_subfolder fs.dirs f.stem
  let sub := r.1
  let fs1 : FS := { fs with dirs := r.2 }
  let step2 : FS × List GenLog :=
    if cfg.copyOriginal then
      if cfg.dryRun then (fs1, [GenLog.dryCopy f.name sub])
      else ({ fs1 with outFiles := (sub, f.name) :: fs1.outFiles }, [])
    else (fs1, [])
  let step3 : FS × List GenLog :=
    if cfg.dryRun then (step2.1, step2.2 ++ [GenLog.dryReadme sub])
    else ({ step2.1 with outFiles := (sub, "README.md") :: step2.1.outFiles },
      step2.2)
  if cfg.dryRun then (step3.1, step3.2 ++ [GenLog.dryMeta sub])
  else ({ step3.1 with outFiles := (sub, "metadata.json") :: step3.1.outFiles },
    step3.2)

/-- The per-file loop of `generate_folders.main` (lines 366–376). -/
def processAllG (cfg : GenCfg) : List SrcFile → FS → FS × List GenLog
  | [], fs => (fs, [])
  | f :: rest, fs =>
    let r := process_file cfg f fs
    let r2 := processAllG cfg rest r.1
    (r2.1, r.2 ++ r2.2)

/-- `main` from `generate_folders.py` (lines 328–379): exit code 2 with no
work done when the input directory is missing or not a directory
(`inputOk = false`); otherwise filter the listed files, process each, and
return 0.  (The `ensure_directory(output_dir)` call touches only the output
root itself, which is not part of the tracked state.) -/
def mainG (inputOk : Bool) (cfg : GenCfg) (files : List SrcFile) (fs : FS) :
    Nat × FS × List GenLog :=
  if inputOk then
    let selected := filter_files files cfg.include_ext cfg.exclude_ext
    if selected = [] then (0, fs, [])
    else
      let r := processAllG cfg selected fs
      (0, r.1, r.2)
  else (2, fs, [])

/-- Configuration of `organize_with_gemini.py` relevant to the filesystem
model; `--model` and `--skip-ai` only influence README content. -/
structure OrgCfg where
  include_ext : Option (List String)
  exclude_ext : Option (List String)
  moveFiles : Bool
  overwrite : Bool
  dryRun : Bool
  readmeFilename : String
deriving DecidableEq

/-- The per-file loop of `organize_with_gemini.process_files` (lines
255–306), with the extension lists already normalized: skip filtered files;
allocate with `ensure_unique_path`; skip when the destination exists and
`--overwrite` is absent; otherwise log `Preparing`, create the folder (unless
dry-run), copy or move the file (unless dry-run), and write the README unless
it already exists without `--overwrite` (unless dry-run).  Returns the final
state, the log, and the `processed` counter. -/
def processLoopO (cfg : OrgCfg) (inc exc : Option (List String)) :
    List SrcFile → FS → FS × List OrgLog × Nat
  | [], fs => (fs, [], 0)
  | f :: rest, fs =>
    if keepFileO inc exc f then
      let folderName :=
        sanitize_folder_name (if f.stem.data = [] then f.name else f.stem)
      let destDir := ensure_unique_path fs.dirs folderName
      if destDir ∈ fs.dirs ∧ ¬cfg.overwrite then
        let r := processLoopO cfg inc exc rest fs
        (r.1, OrgLog.skipExisting destDir :: r.2.1, r.2.2)
      else
        let fs1 : FS :=
          if cfg.dryRun then fs else { fs with dirs := destDir :: fs.dirs }
        let fs2 : FS :=
          if cfg.dryRun then fs1
          else if cfg.moveFiles then
            { fs1 with srcFiles := fs1.srcFiles.erase f.name,
                       outFiles := (destDir, f.name) :: fs1.outFiles }
          else { fs1 with outFiles := (destDir, f.name) :: fs1.outFiles }
        let step3 : List OrgLog × FS :=
          if (destDir, cfg.readmeFilename) ∈ fs2.outFiles ∧ ¬cfg.overwrite then
            ([OrgLog.readmeExists destDir], fs2)
          else
            ([OrgLog.writingReadme destDir],
              if cfg.dryRun then fs2
              else { fs2 with
                outFiles := (destDir, cfg.readmeFilename) :: fs2.outFiles })
        let r := processLoopO cfg inc exc rest step3.2
        (r.1,
          OrgLog.preparing destDir ::
            OrgLog.transfer f.name destDir cfg.moveFiles ::
              (step3.1 ++ r.2.1),
          r.2.2 + 1)
    else processLoopO cfg inc exc rest fs

/-- The listing order of `process_files`: `files.sort(key=lambda p:
p.name.lower())` — a stable sort on the lower-cased name (Python compares
strings by code points, as Lean's `String` order does). -/
def sortFilesO (files : List SrcFile) : List SrcFile :=
  files.mergeSort fun a b => decide (lowerStr a.name ≤ lowerStr b.name)

/-- `process_files` from `organize_with_gemini.py` (lines 208–308):
normalize the extension lists, sort the directory listing, and run the loop. -/
def process_files (cfg : OrgCfg) (files : List SrcFile) (fs : FS) :
    FS × List OrgLog × Nat :=
  processLoopO cfg (normalizeExts cfg.include_ext) (normalizeExts cfg.exclude_ext)
    (sortFilesO files) fs

/-- `parse_args` from `organize_with_gemini.py` (lines 318–406): when the
source directory does not exist or is not a directory it raises
`SystemExit(message)`; otherwise the parsed configuration is returned. -/
def parse_args (srcOk : Bool) (cfg : OrgCfg) : Except String OrgCfg :=
  if srcOk then Except.ok cfg
  else Except.error "source-dir does not exist or is not a directory"

/-- `main` from `organize_with_gemini.py` (lines 409–438): `SystemExit`
raised with a message terminates the process with exit code 1 before any work
is done; otherwise `process_files` runs and `main` returns 0. -/
def mainO (srcOk : Bool) (cfg : OrgCfg) (files : List SrcFile) (fs : FS) :
    Nat × FS × List OrgLog :=
  match parse_args srcOk cfg with
  | Except.error _ => (1, fs, [])
  | Except.ok c =>
    let r := process_files c files fs
    (0, r.1, r.2.1)

/-! ### `send_file` from `groups_file.py` -/

/-- Possible outcomes of the `bot.send_document` call wrapped in
`asyncio.wait_for` (`groups_file.py` lines 274–278), as distinguished by the
`except` clauses of `send_file`. -/
inductive UploadOutcome
  | ok
  | asyncTimeout
  | tgChatNotFound
  | tgTooLarge
  | tgTimedOut
  | tgOther
  | otherErr
deriving DecidableEq

/-- The failure taxonomy reported by `send_file`: too-large, not-found,
timed-out, other. -/
inductive FailReason
  | tooLarge
  | notFound
  | timedOut
  | other
deriving DecidableEq

/-- Result of `send_file`: the returned boolean, the reported failure reason
(if any), and whether the upload was attempted at all. -/
structure SendResult where
  ok : Bool
  reason : Option FailReason
  attempted : Bool
deriving DecidableEq

/-- The 50 MB ceiling of `send_file`: `max_size = 50 * 1024 * 1024`. -/
def MAX_SEND_SIZE : Nat := 50 * 1024 * 1024

/-- `send_file(bot, file_path, chat_id)` from `groups_file.py` (lines
261–300).  `fileSize = none` models `os.path.getsize` raising
`FileNotFoundError` (caught, reported, `False`).  A size above the ceiling
returns `False` before any upload attempt.  Otherwise the upload outcome is
classified by the `except` clauses: `asyncio.TimeoutError` → timed-out;
`TelegramError` containing `Chat not found` → not-found, `Request Entity Too
Large` → too-large, `Timed out` → timed-out, otherwise → other; any other
exception → other.  Every failure path returns `False` instead of raising. -/
def send_file (fileSize : Option Nat) (upload : UploadOutcome) : SendResult :=
  match fileSize with
  | none => ⟨false, some FailReason.notFound, false⟩
  | some sz =>
    if sz > MAX_SEND_SIZE then ⟨false, some FailReason.tooLarge, false⟩
    else
      match upload with
      | UploadOutcome.ok => ⟨true, none, true⟩
      | UploadOutcome.asyncTimeout => ⟨false, some FailReason.timedOut, true⟩
      | UploadOutcome.tgChatNotFound => ⟨false, some FailReason.notFound, true⟩
      | UploadOutcome.tgTooLarge => ⟨false, some FailReason.tooLarge, true⟩
      | UploadOutcome.tgTimedOut => ⟨false, some FailReason.timedOut, true⟩
      | UploadOutcome.tgOther => ⟨false, some FailReason.other, true⟩
      | UploadOutcome.otherErr => ⟨false, some FailReason.other, true⟩

/-! ### Pipeline lemmas -/

theorem processLoopO_no_skip (cfg : OrgCfg) (inc exc : Option (List String)) :
    ∀ (files : List SrcFile) (fs : FS),
      List.countP isSkipExisting (processLoopO cfg inc exc files fs).2.1 = 0 := by
  intro files
  induction files with
  | nil => intro fs; rfl
  | cons f rest ih =>
    intro fs
    simp only [processLoopO]
    by_cases hkeep : keepFileO inc exc f
    · simp only [hkeep, if_true]
      rw [if_neg (fun h =>
        (ensure_unique_path_not_mem fs.dirs
          (sanitize_folder_name (if f.stem.data = [] then f.name else f.stem))) h.1)]
      simp only [List.countP_cons, List.countP_append,
        apply_ite (List.countP isSkipExisting), isSkipExisting, ih]
      split <;> simp [isSkipExisting, ih] <;>
        (intro a ha
         repeat' split at ha
         all_goals simp_all [isSkipExisting])
    · simp only [hkeep]
      simpa using ih fs

theorem processLoopO_dry_state (cfg : OrgCfg) (hdry : cfg.dryRun = true)
    (inc exc : Option (List String)) :
    ∀ (files : List SrcFile) (fs : FS),
      (processLoopO cfg inc exc files fs).1 = fs := by
  intro files
  induction files with
  | nil => intro fs; rfl
  | cons f rest ih =>
    intro fs
    simp only [processLoopO]
    by_cases hkeep : keepFileO inc exc f
    · simp only [hkeep, if_true]
      repeat' split
      all_goals simp_all [ih]
    · simp only [hkeep]
      simpa using ih fs

theorem processLoopO_dry_count (cfg : OrgCfg) (hdry : cfg.dryRun = true)
    (inc exc : Option (List String)) :
    ∀ (files : List SrcFile) (fs : FS),
      List.countP isPreparing (processLoopO cfg inc exc files fs).2.1 =
        (processLoopO cfg inc exc files fs).2.2 := by
  intro files
  induction files with
  | nil => intro fs; rfl
  | cons f rest ih =>
    intro fs
    simp only [processLoopO]
    by_cases hkeep : keepFileO inc exc f
    · simp only [hkeep, if_true]
      repeat' split
      all_goals
        simp_all [List.countP_cons, List.countP_append, isPreparing, ih]
    · simp only [hkeep]
      simpa using ih fs

theorem process_file_dry (cfg : GenCfg) (hdry : cfg.dryRun = true)
    (f : SrcFile) (fs : FS) :
    (process_file cfg f fs).1.outFiles = fs.outFiles ∧
      (process_file cfg f fs).1.srcFiles = fs.srcFiles ∧
      List.countP isDryReadme (process_file cfg f fs).2 = 1 := by
  simp only [process_file]
  repeat' split
  all_goals simp_all [List.countP_cons, List.countP_append, isDryReadme]

theorem processAllG_dry (cfg : GenCfg) (hdry : cfg.dryRun = true) :
    ∀ (files : List SrcFile) (fs : FS),
      (processAllG cfg files fs).1.outFiles = fs.outFiles ∧
        (processAllG cfg files fs).1.srcFiles = fs.srcFiles ∧
        List.countP isDryReadme (processAllG cfg files fs).2 = files.length := by
  intro files
  induction files with
  | nil => intro fs; exact ⟨rfl, rfl, rfl⟩
  | cons f rest ih =>
    intro fs
    simp only [processAllG]
    obtain ⟨h1, h2, h3⟩ := process_file_dry cfg hdry f fs
    obtain ⟨h4, h5, h6⟩ := ih (process_file cfg f fs).1
    refine ⟨by rw [h4, h1], by rw [h5, h2], ?_⟩
    simp only [List.countP_append, h3, h6, List.length_cons]
    omega

/-! ### The claims -/

/-- C1 (counterexample): the claim "dry-run performs zero filesystem
mutations" is false for `generate_folders.py`: running its pipeline in
dry-run mode over a one-file directory still creates the per-file output
folder, because `create_unique_subfolder` calls `ensure_directory(candidate)`
unconditionally. -/
theorem c1_counterexample :
    (mainG true ⟨none, none, false, true⟩ [⟨"a.txt", "a", ".txt"⟩]
        ⟨[], [], []⟩).2.1 ≠ ⟨[], [], []⟩ := by
  decide

/-- C1 (amended): with dry-run enabled, the `organize_with_gemini` pipeline
performs zero filesystem mutations and still logs one `Preparing folder`
notice per processed item (three notices for a three-file directory); the
`generate_folders` pipeline with dry-run enabled writes no files (no copies,
READMEs or metadata, and the source directory is untouched) and prints a
`[DRY-RUN] Would write README.md` notice for every selected item, but it
still creates the target folders. -/
theorem c1_amended :
    (∀ (ie ee : Option (List String)) (mv ov : Bool) (rf : String)
        (files : List SrcFile) (fs : FS),
      (process_files ⟨ie, ee, mv, ov, true, rf⟩ files fs).1 = fs ∧
        List.countP isPreparing
            (process_files ⟨ie, ee, mv, ov, true, rf⟩ files fs).2.1 =
          (process_files ⟨ie, ee, mv, ov, true, rf⟩ files fs).2.2) ∧
    (∀ (ie ee : Option (List String)) (co : Bool)
        (files : List SrcFile) (fs : FS),
      (mainG true ⟨ie, ee, co, true⟩ files fs).2.1.outFiles = fs.outFiles ∧
        (mainG true ⟨ie, ee, co, true⟩ files fs).2.1.srcFiles = fs.srcFiles ∧
        List.countP isDryReadme (mainG true ⟨ie, ee, co, true⟩ files fs).2.2 =
          (filter_files files ie ee).length) ∧
    ((processLoopO ⟨none, none, false, false, true, "README.md"⟩ none none
        [⟨"a.txt", "a", ".txt"⟩, ⟨"b.txt", "b", ".txt"⟩, ⟨"c.txt", "c", ".txt"⟩]
        ⟨[], [], []⟩).1 = ⟨[], [], []⟩ ∧
      List.countP isPreparing
          (processLoopO ⟨none, none, false, false, true, "README.md"⟩ none none
            [⟨"a.txt", "a", ".txt"⟩, ⟨"b.txt", "b", ".txt"⟩,
              ⟨"c.txt", "c", ".txt"⟩]
            ⟨[], [], []⟩).2.1 = 3) := by
  refine ⟨?_, ?_, by decide, by decide⟩
  · intro ie ee mv ov rf files fs
    exact ⟨processLoopO_dry_state ⟨ie, ee, mv, ov, true, rf⟩ rfl _ _ _ fs,
      processLoopO_dry_count ⟨ie, ee, mv, ov, true, rf⟩ rfl _ _ _ fs⟩
  · intro ie ee co files fs
    simp only [mainG, if_true]
    by_cases hsel : filter_files files ie ee = []
    · simp [hsel]
    · simp only [hsel, if_neg (fun h => hsel h)]
      obtain ⟨h1, h2, h3⟩ :=
        processAllG_dry ⟨ie, ee, co, true⟩ rfl (filter_files files ie ee) fs
      exact ⟨h1, h2, h3⟩

/-- C2 (counterexample): the claim "`sanitize` output consists only of
allow-set characters (`A-Z a-z 0-9 . _ -`, plus optionally space)" fails for
the `organize_with_gemini` variant: Python's Unicode `isalnum` lets `é` pass
through unchanged, and `é` is outside the allow-set. -/
theorem c2_counterexample :
    'é' ∈ (sanitize_folder_name "café").data ∧ allowedDir 'é' = false ∧
      'é' ≠ ' ' := by
  decide

/-- C2 (amended): `sanitize_for_dir_name` (the `generate_folders` variant)
returns a non-empty string consisting only of allow-set characters
(`A-Z a-z 0-9 . _ -`); `sanitize_folder_name` (the `organize_with_gemini`
variant) returns a non-empty string whose characters are each either
Unicode-alphanumeric or in `{-, _, ., space}` — not necessarily in the ASCII
allow-set. -/
theorem c2_amended :
    (∀ s : String, (∀ c ∈ (sanitize_for_dir_name s).data, allowedDir c = true) ∧
      (sanitize_for_dir_name s).data ≠ []) ∧
    (∀ s : String, (∀ c ∈ (sanitize_folder_name s).data, keepCharO c = true) ∧
      (sanitize_folder_name s).data ≠ []) :=
  ⟨fun s => ⟨fun _ hc => sanitize_for_dir_name_mem hc,
      sanitize_for_dir_name_ne_nil s⟩,
    fun s => ⟨fun _ hc => sanitize_folder_name_mem hc,
      sanitize_folder_name_ne_nil s⟩⟩

/-- C3 (counterexample): `sanitize_folder_name` (the `_`-separator variant)
is not idempotent: on `"a ."` it returns `"a "` (the whitespace strip runs
before the `"._"` strip, so removing the trailing dot exposes a trailing
space), and a second application returns `"a"`. -/
theorem c3_counterexample :
    sanitize_folder_name (sanitize_folder_name "a .") ≠
      sanitize_folder_name "a ." := by
  decide

/-- C3 (amended): `sanitize_for_dir_name` (the `-`-separator variant of
`generate_folders.py`) is idempotent; the `_`-separator variant
`sanitize_folder_name` is not. -/
theorem c3_amended :
    ∀ s : String,
      sanitize_for_dir_name (sanitize_for_dir_name s) = sanitize_for_dir_name s :=
  sanitize_for_dir_name_idem

/-- C4: for every desired name, every starting state of the destination root
and every number of allocations `n`, iterating the allocator yields pairwise
distinct paths, each of which is recorded in the final state; moreover each
single allocation returns a path that did not exist before the call and
returns with the path created (`create_unique_subfolder` creates it itself;
in the organize pipeline `ensure_unique_path` is immediately followed by
`mkdir`, modelled by `allocateO`). -/
theorem c4_allocation_distinct :
    ∀ (name : String) (n : Nat) (st : List String),
      ((allocRun (fun s => create_unique_subfolder s name) n st).1.Nodup ∧
        ∀ p ∈ (allocRun (fun s => create_unique_subfolder s name) n st).1,
          p ∈ (allocRun (fun s => create_unique_subfolder s name) n st).2) ∧
      ((allocRun (fun s => allocateO s name) n st).1.Nodup ∧
        ∀ p ∈ (allocRun (fun s => allocateO s name) n st).1,
          p ∈ (allocRun (fun s => allocateO s name) n st).2) ∧
      (∀ s, (create_unique_subfolder s name).1 ∉ s ∧
        (create_unique_subfolder s name).2 = (create_unique_subfolder s name).1 :: s) ∧
      (∀ s, (allocateO s name).1 ∉ s ∧
        (allocateO s name).2 = (allocateO s name).1 :: s) := by
  intro name n st
  have hfreeG : ∀ s, ((fun s => create_unique_subfolder s name) s).1 ∉ s :=
    fun s => create_unique_subfolder_not_mem s name
  have hstepG : ∀ s, ((fun s => create_unique_subfolder s name) s).2 =
      ((fun s => create_unique_subfolder s name) s).1 :: s := fun s => rfl
  have hfreeO : ∀ s, ((fun s => allocateO s name) s).1 ∉ s :=
    fun s => ensure_unique_path_not_mem s name
  have hstepO : ∀ s, ((fun s => allocateO s name) s).2 =
      ((fun s => allocateO s name) s).1 :: s := fun s => rfl
  exact ⟨⟨allocRun_nodup _ hfreeG hstepG n st,
      fun p hp => allocRun_paths_mem_final _ hstepG n st p hp⟩,
    ⟨allocRun_nodup _ hfreeO hstepO n st,
      fun p hp => allocRun_paths_mem_final _ hstepO n st p hp⟩,
    fun s => ⟨hfreeG s, rfl⟩, fun s => ⟨hfreeO s, rfl⟩⟩

/-- C5: with an existing folder `notes`, allocating for safe name `notes`
yields `notes-2` in the `generate_folders` convention (suffixes start at 2)
and `notes_1` in the `organize_with_gemini` convention (suffixes start at 1),
never `notes` itself; in general the returned path is never one that already
exists. -/
theorem c5_collision_disambiguation :
    (create_unique_subfolder ["notes"] "notes").1 = "notes-2" ∧
      ensure_unique_path ["notes"] "notes" = "notes_1" ∧
      (create_unique_subfolder ["notes"] "notes").1 ≠ "notes" ∧
      ensure_unique_path ["notes"] "notes" ≠ "notes" ∧
      (∀ (occ : List String) (d : String),
        (create_unique_subfolder occ d).1 ∉ occ) ∧
      (∀ (occ : List String) (d : String), ensure_unique_path occ d ∉ occ) :=
  ⟨by decide, by decide, by decide, by decide,
    create_unique_subfolder_not_mem, ensure_unique_path_not_mem⟩

/-- C6: extension filtering compares the lower-cased suffix (leading dot
included) on both sides; an include list (when truthy) is a strict allow-set,
an exclude list removes matches even when the include list admits them, and
the include filter runs before the exclude filter.  Holds in both variants
(`filter_files` of `generate_folders.py`, and the normalized include/exclude
guards of `organize_with_gemini.process_files`); the spec's concrete
`a.txt, b.csv, c.TXT` scenario evaluates as stated. -/
theorem c6_extension_filtering :
    (∀ (files : List SrcFile) (ie ee : Option (List String)) (f : SrcFile),
      f ∈ filter_files files ie ee ↔
        f ∈ files ∧
          (∀ l, ie = some l → l ≠ [] → lowerStr f.suffix ∈ l.map lowerStr) ∧
          (∀ l, ee = some l → lowerStr f.suffix ∉ l.map lowerStr)) ∧
    (∀ (inc exc : Option (List String)) (f : SrcFile),
      keepFileO (normalizeExts inc) (normalizeExts exc) f = true ↔
        (∀ l, normalizeExts inc = some l → lowerStr f.suffix ∈ l) ∧
          (∀ l, normalizeExts exc = some l → lowerStr f.suffix ∉ l)) ∧
    (∀ (files : List SrcFile) (ie : Option (List String)) (l : List String)
        (f : SrcFile), f ∈ files → lowerStr f.suffix ∈ l.map lowerStr →
          f ∉ filter_files files ie (some l)) ∧
    (filter_files
        [⟨"a.txt", "a", ".txt"⟩, ⟨"b.csv", "b", ".csv"⟩, ⟨"c.TXT", "c", ".TXT"⟩]
        (some [".txt"]) none =
      [⟨"a.txt", "a", ".txt"⟩, ⟨"c.TXT", "c", ".TXT"⟩]) := by
  refine ⟨mem_filter_files_iff, keepFileO_iff, ?_, by decide⟩
  intro files ie l f _ hmem hcon
  exact ((mem_filter_files_iff files ie (some l) f).mp hcon).2.2 l rfl hmem

/-- C7: both entry points exit 0 on success; when the input directory is
missing or not a directory, `generate_folders.main` returns 2 before doing
any work and `organize_with_gemini.parse_args` raises `SystemExit` with a
message (process exit code 1) before doing any work — in both cases a
non-zero exit with the filesystem untouched and nothing processed. -/
theorem c7_exit_codes :
    (∀ (cfg : GenCfg) (files : List SrcFile) (fs : FS),
      mainG false cfg files fs = (2, fs, [])) ∧
    (∀ (cfg : GenCfg) (files : List SrcFile) (fs : FS),
      (mainG true cfg files fs).1 = 0) ∧
    (∀ (cfg : OrgCfg) (files : List SrcFile) (fs : FS),
      mainO false cfg files fs = (1, fs, [])) ∧
    (∀ (cfg : OrgCfg) (files : List SrcFile) (fs : FS),
      (mainO true cfg files fs).1 = 0) := by
  refine ⟨fun cfg files fs => rfl, ?_, fun cfg files fs => rfl,
    fun cfg files fs => rfl⟩
  intro cfg files fs
  simp only [mainG, if_true]
  by_cases hsel : filter_files files cfg.include_ext cfg.exclude_ext = [] <;>
    simp [hsel]

/-- C8: `send_file` refuses any file strictly larger than the 50 MB ceiling
(`50 * 1024 * 1024` bytes) without attempting the upload, returning `False`
with the too-large reason; and on every input it either succeeds or returns
`False` with a reason from the taxonomy (too-large, not-found, timed-out,
other) — it never raises. -/
theorem c8_send_file_limit :
    (∀ (k : Nat) (u : UploadOutcome),
      send_file (some (MAX_SEND_SIZE + 1 + k)) u =
        ⟨false, some FailReason.tooLarge, false⟩) ∧
    (∀ (sz : Option Nat) (u : UploadOutcome),
      ((send_file sz u).ok = true ∧ (send_file sz u).reason = none) ∨
        ((send_file sz u).ok = false ∧
          ∃ r : FailReason, (send_file sz u).reason = some r)) := by
  constructor
  · intro k u
    show (if MAX_SEND_SIZE + 1 + k > MAX_SEND_SIZE then
        (⟨false, some FailReason.tooLarge, false⟩ : SendResult)
      else _) = ⟨false, some FailReason.tooLarge, false⟩
    rw [if_pos (by omega)]
  · intro sz u
    cases sz with
    | none => exact Or.inr ⟨rfl, FailReason.notFound, rfl⟩
    | some n =>
      by_cases h : n > MAX_SEND_SIZE
      · exact Or.inr ⟨by simp [send_file, h], FailReason.tooLarge,
          by simp [send_file, h]⟩
      · cases u <;> simp [send_file, h]

/-- C9: both sanitizers map `""` and `"...."` to exactly the fallback literal
`"item"`. -/
theorem c9_fallback_literal :
    sanitize_for_dir_name "" = "item" ∧ sanitize_for_dir_name "...." = "item" ∧
      sanitize_folder_name "" = "item" ∧ sanitize_folder_name "...." = "item" := by
  refine ⟨by decide, by decide, by decide, by decide⟩

/-- C10: the `dest_dir.exists() and not overwrite` skip branch of
`organize_with_gemini.process_files` is unreachable: `ensure_unique_path`
always returns a path that does not exist at the time of the call, so no run
of the loop — whatever the configuration, file list and starting state — ever
logs `Skipping existing folder`. -/
theorem c10_skip_branch_unreachable :
    (∀ (cfg : OrgCfg) (files : List SrcFile) (fs : FS),
      List.countP isSkipExisting (process_files cfg files fs).2.1 = 0) ∧
    (∀ (occ : List String) (d : String), ensure_unique_path occ d ∉ occ) :=
  ⟨fun cfg files fs => processLoopO_no_skip cfg _ _ _ fs,
    ensure_unique_path_not_mem⟩
